import Mathlib

/-!
Verification development for the AIS trajectory-cleaning repository
(`P1_data_statistics_traj_cleaning`).  The diagnostics functions
(`_compute_interval_table`, `_build_mmsi_row_change_table`,
`_format_diagnostics_report`), the ingestion function (`_load_raw_data`),
the step-record loop and the final sort are embedded from
`p2_traj_cleaning.py`; the cleaning stages themselves live in the external
`sinbue.AISCleanGenius` package and are modelled from the specification.
Timestamps are modelled as integer seconds; numeric values as rationals.
-/

namespace AISClean

/-- A raw AIS position record as produced by `_load_raw_data` in
`p2_traj_cleaning.py`: `timeUtc` is parsed with `errors="coerce"` so an
unparseable timestamp becomes `none` (pandas `NaT`); coordinates and speed
may be null.  Timestamps are modelled as integer seconds since an epoch. -/
structure PosRecord where
  mmsi : Option Int
  timeUtc : Option Int
  lon : Option ℚ
  lat : Option ℚ
  speed : Option ℚ
deriving DecidableEq

/-- Modelled from the spec: numeric thresholds per stage (jitter distance,
speed-drift ratio, max physical speed).  Distances and speeds are compared
squared so the model stays inside `ℚ` (the spec fixes no metric; planar
squared displacement in degree space is used). -/
structure CleanConfig where
  jitterThr2 : ℚ
  driftThr2 : ℚ
  vmax2 : ℚ
deriving DecidableEq

/-- Squared planar displacement between two fixes (null coordinates read as 0;
stage 1 removes them before the geometric stages run). -/
def dist2 (a b : PosRecord) : ℚ :=
  (b.lon.getD 0 - a.lon.getD 0) ^ 2 + (b.lat.getD 0 - a.lat.getD 0) ^ 2

/-- Squared implied speed between two fixes: squared displacement over squared
elapsed time; a non-positive or undefined time delta yields 0 (the spec
excludes such deltas from cleaning decisions). -/
def speed2 (a b : PosRecord) : ℚ :=
  match a.timeUtc, b.timeUtc with
  | some ta, some tb =>
    if ta < tb then dist2 a b / ((tb - ta : ℤ) : ℚ) ^ 2 else 0
  | _, _ => 0

/-- Modelled from the spec (Stage 1): a record passes the basic validity test
when its timestamp is non-null and both coordinates are non-null and within
geographic bounds (±180°, ±90°). -/
def basicKeep (r : PosRecord) : Bool :=
  r.timeUtc.isSome &&
    (match r.lon, r.lat with
     | some lo, some la =>
       decide (-180 ≤ lo) && decide (lo ≤ 180) && decide (-90 ≤ la) && decide (la ≤ 90)
     | _, _ => false)

/-- Modelled from the spec (Stage 1): drop records whose `(mmsi, timeUtc)`
key has already been seen, keeping the first occurrence. -/
def dedupGo : List (Option Int × Option Int) → List PosRecord → List PosRecord
  | _, [] => []
  | seen, r :: rest =>
    if (r.mmsi, r.timeUtc) ∈ seen then dedupGo seen rest
    else r :: dedupGo ((r.mmsi, r.timeUtc) :: seen) rest

/-- Modelled from the spec: Stage 1 — basic validity filter followed by
composite-key deduplication. -/
def basicStage (df : List PosRecord) : List PosRecord :=
  dedupGo [] (df.filter basicKeep)

/-- Modelled from the spec (Stage 2): walk a trajectory comparing each fix to
the last kept fix; a fix within the squared jitter threshold of it belongs to
the same stationary run and is dropped, except that the final fix of the
trajectory is never dropped. -/
def dropJitterRun (thr2 : ℚ) : PosRecord → List PosRecord → List PosRecord
  | _, [] => []
  | _, [r] => [r]
  | p, r :: s :: rest =>
    if dist2 p r < thr2 then dropJitterRun thr2 p (s :: rest)
    else r :: dropJitterRun thr2 r (s :: rest)

/-- Modelled from the spec: Stage 2 — stationary-drift compression of one
vessel trajectory; the first fix is always kept, trajectories with fewer than
two fixes pass through unchanged. -/
def tbdDriftStage (cfg : CleanConfig) : List PosRecord → List PosRecord
  | [] => []
  | r :: rest => r :: dropJitterRun cfg.jitterThr2 r rest

/-- A squared implied speed above the drift threshold. -/
def spikeTo (cfg : CleanConfig) (a b : PosRecord) : Bool :=
  decide (cfg.driftThr2 < speed2 a b)

/-- Modelled from the spec (Stage 3): single pass over original neighbour
triples; an interior fix spiking against both original neighbours while the
neighbours are mutually consistent is dropped. -/
def bdDriftGo (cfg : CleanConfig) : PosRecord → List PosRecord → List PosRecord
  | _, [] => []
  | _, [r] => [r]
  | a, b :: c :: rest =>
    if spikeTo cfg a b && spikeTo cfg b c && !(spikeTo cfg a c)
    then bdDriftGo cfg b (c :: rest)
    else b :: bdDriftGo cfg b (c :: rest)

/-- Modelled from the spec: Stage 3 — bidirectional speed-drift filter on one
vessel trajectory. -/
def bdDriftStage (cfg : CleanConfig) : List PosRecord → List PosRecord
  | [] => []
  | a :: rest => a :: bdDriftGo cfg a rest

/-- Modelled from the spec (Stage 4): iterative speed-anomaly filter; each fix
is compared against the last kept fix and dropped when the squared implied
speed exceeds the squared ceiling. -/
def speedFilterGo (cfg : CleanConfig) : PosRecord → List PosRecord → List PosRecord
  | _, [] => []
  | p, r :: rest =>
    if decide (cfg.vmax2 < speed2 p r) then speedFilterGo cfg p rest
    else r :: speedFilterGo cfg r rest

/-- Modelled from the spec: Stage 4 — speed-anomaly filter on one vessel
trajectory. -/
def speedStage (cfg : CleanConfig) : List PosRecord → List PosRecord
  | [] => []
  | r :: rest => r :: speedFilterGo cfg r rest

/-- `none`-last order on optional timestamps (pandas sorts `NaT` last). -/
def optIntLe (a b : Option Int) : Bool :=
  match a, b with
  | some x, some y => decide (x ≤ y)
  | some _, none => true
  | none, some _ => false
  | none, none => true

/-- `optIntLe` as a relation. -/
def optIntLeP (a b : Option Int) : Prop := optIntLe a b = true

instance : DecidableRel optIntLeP := fun a b => by unfold optIntLeP; infer_instance

/-- Timestamp order on records. -/
def timeLeP (a b : PosRecord) : Prop := optIntLeP a.timeUtc b.timeUtc

instance : DecidableRel timeLeP := fun a b => by unfold timeLeP; infer_instance

/-- Sort a trajectory by timestamp ascending (the partitioner sorts each
vessel group by `timeUtc`; a stable sort, ties broken by input order). -/
def sortByTime (l : List PosRecord) : List PosRecord :=
  List.insertionSort timeLeP l

/-- The vessel keys of a table, in first-appearance order. -/
def vesselKeys (df : List PosRecord) : List (Option Int) :=
  (df.map PosRecord.mmsi).dedup

/-- The records of one vessel, in table order. -/
def vesselGroup (df : List PosRecord) (k : Option Int) : List PosRecord :=
  df.filter (fun r => decide (r.mmsi = k))

/-- Modelled from the spec: the ingestion partitioner applies a per-vessel
stage to each time-sorted vessel group and concatenates the results. -/
def perVessel (f : List PosRecord → List PosRecord) (df : List PosRecord) : List PosRecord :=
  (vesselKeys df).flatMap (fun k => f (sortByTime (vesselGroup df k)))

/-- The four stage names accepted by `cleaner.clean(method=...)`. -/
inductive Stage
  | basic
  | tbd_drift
  | bidirectional_speed_drift
  | speed_anomalies
deriving DecidableEq, BEq

/-- The string each stage is recorded under in the step table. -/
def stageName : Stage → String
  | .basic => "basic"
  | .tbd_drift => "tbd_drift"
  | .bidirectional_speed_drift => "bidirectional_speed_drift"
  | .speed_anomalies => "speed_anomalies"

/-- Modelled from the spec: `cleaner.clean(method=step)` — apply one cleaning
stage to the current table. -/
def applyStage (cfg : CleanConfig) : Stage → List PosRecord → List PosRecord
  | .basic => basicStage
  | .tbd_drift => perVessel (tbdDriftStage cfg)
  | .bidirectional_speed_drift => perVessel (bdDriftStage cfg)
  | .speed_anomalies => perVessel (speedStage cfg)

/-- One row of the step table built by the `step_records` loop in
`p2_traj_cleaning.py`. -/
structure StepRecord where
  step : String
  rows_before : Nat
  rows_after : Nat
  rows_removed : Int
  removed_pct_of_previous : ℚ
  removed_pct_of_initial : ℚ
deriving DecidableEq

/-- One step record as appended by the loop body (lines 183–201): row counts
around the stage, their difference, and the two percentages, each guarded
against a zero denominator exactly as in the source. -/
def mkStep (name : String) (rows_before rows_after initial : Nat) : StepRecord :=
  let removed : Int := (rows_before : Int) - (rows_after : Int)
  { step := name
    rows_before := rows_before
    rows_after := rows_after
    rows_removed := removed
    removed_pct_of_previous :=
      if rows_before = 0 then 0 else (removed : ℚ) / (rows_before : ℚ) * 100
    removed_pct_of_initial :=
      if initial = 0 then 0 else (removed : ℚ) / (initial : ℚ) * 100 }

/-- The `raw_input` row appended before the loop (lines 172–181). -/
def rawInputStep (initial : Nat) : StepRecord :=
  { step := "raw_input"
    rows_before := initial
    rows_after := initial
    rows_removed := 0
    removed_pct_of_previous := 0
    removed_pct_of_initial := 0 }

/-- The `for step in steps` loop (lines 183–201): apply each stage in order,
recording row counts before and after. -/
def runSteps (cfg : CleanConfig) (initial : Nat) :
    List Stage → List PosRecord → List PosRecord × List StepRecord
  | [], df => (df, [])
  | s :: rest, df =>
    let before := df.length
    let df2 := applyStage cfg s df
    let after := df2.length
    let out := runSteps cfg initial rest df2
    (out.1, mkStep (stageName s) before after initial :: out.2)

/-- The whole cleaning run of `p2_traj_cleaning.py`: record the raw-input row,
then apply the configured stages in order. -/
def runPipeline (cfg : CleanConfig) (steps : List Stage) (df : List PosRecord) :
    List PosRecord × List StepRecord :=
  let initial := df.length
  let out := runSteps cfg initial steps df
  (out.1, rawInputStep initial :: out.2)

/-- The `steps` list of the reference configuration (lines 164–169);
`"bidirectional_speed_drift"` is commented out there. -/
def defaultSteps : List Stage :=
  [Stage.basic, Stage.tbd_drift, Stage.speed_anomalies]

/-- Lexicographic `(mmsi, timeUtc)` order used by the final
`df_cleaned.sort_values(["mmsi", "timeUtc"])` (line 205); pandas places
nulls last. -/
def mmsiTimeLe (a b : PosRecord) : Bool :=
  (optIntLe a.mmsi b.mmsi && !(optIntLe b.mmsi a.mmsi)) ||
    (a.mmsi == b.mmsi && optIntLe a.timeUtc b.timeUtc)

/-- `mmsiTimeLe` as a relation. -/
def mmsiTimeLeP (a b : PosRecord) : Prop := mmsiTimeLe a b = true

instance : DecidableRel mmsiTimeLeP := fun a b => by unfold mmsiTimeLeP; infer_instance

/-- Line 205: the cleaned table is sorted by vessel then timestamp before
being emitted (a stable sort on the lexicographic key). -/
def emitCleaned (df : List PosRecord) : List PosRecord :=
  List.insertionSort mmsiTimeLeP df

/-! ### `_compute_interval_table` (lines 42–71) -/

/-- Line 43: `df[["mmsi", "timeUtc"]].dropna(subset=["mmsi", "timeUtc"])` —
the `(mmsi, timeUtc)` pairs of the rows where both are non-null, in table
order. -/
def validKeyTimeRows (df : List PosRecord) : List (Int × Int) :=
  df.filterMap (fun r =>
    match r.mmsi, r.timeUtc with
    | some m, some t => some (m, t)
    | _, _ => none)

/-- `(mmsi, timeUtc)` lexicographic order for
`data.sort_values(["mmsi", "timeUtc"])` (line 44). -/
def keyTimeLe (a b : Int × Int) : Bool :=
  decide (a.1 < b.1) || (decide (a.1 = b.1) && decide (a.2 ≤ b.2))

/-- `keyTimeLe` as a relation. -/
def keyTimeLeP (a b : Int × Int) : Prop := keyTimeLe a b = true

instance : DecidableRel keyTimeLeP := fun a b => by unfold keyTimeLeP; infer_instance

/-- Line 44: sort the two-column work table by `(mmsi, timeUtc)` (stable). -/
def sortKeyTime (l : List (Int × Int)) : List (Int × Int) :=
  List.insertionSort keyTimeLeP l

/-- The most recent timestamp already seen for vessel `m` (`seen` holds the
rows processed so far, most recent first). -/
def lastTimeOf (seen : List (Int × Int)) (m : Int) : Option Int :=
  (seen.find? (fun p => p.1 == m)).map Prod.snd

/-- `groupby("mmsi")["timeUtc"].diff()` (line 45): each row's time delta to
the previous row of the same vessel, `none` on the first row of a group.
Emits `(mmsi, timeUtc, interval_seconds)` triples. -/
def groupDiffGo : List (Int × Int) → List (Int × Int) → List (Int × Int × Option Int)
  | _, [] => []
  | seen, (m, t) :: rest =>
    (m, t, (lastTimeOf seen m).map (fun tp => t - tp)) ::
      groupDiffGo ((m, t) :: seen) rest

/-- Line 45: the work table after the `interval_seconds` column assignment. -/
def groupDiffCol (rows : List (Int × Int)) : List (Int × Int × Option Int) :=
  groupDiffGo [] rows

/-- Line 46: `data[data["interval_seconds"].notna() & (data["interval_seconds"] > 0)]`. -/
def keepPositiveInterval (p : Int × Int × Option Int) : Bool :=
  match p.2.2 with
  | some d => decide (0 < d)
  | none => false

/-- The `(mmsi, interval_seconds)` pairs surviving the notna/positivity mask of
line 46 — the rows interval statistics are aggregated over. -/
def intervalPairs (df : List PosRecord) : List (Int × Int) :=
  ((groupDiffCol (sortKeyTime (validKeyTimeRows df))).filter keepPositiveInterval).map
    (fun p => (p.1, p.2.2.getD 0))

/-- Claim side: the timestamps of vessel `m`'s valid-timestamp records, sorted
ascending — the temporal order of that vessel's records. -/
def vesselTimesSpec (df : List PosRecord) (m : Int) : List Int :=
  List.insertionSort (fun a b : Int => a ≤ b)
    (((validKeyTimeRows df).filter (fun p => p.1 == m)).map Prod.snd)

/-- Claim side: the time deltas between temporally adjacent entries. -/
def adjacentDeltas (ts : List Int) : List Int :=
  ts.zipWith (fun a b => b - a) ts.tail

/-- One row of the per-vessel interval table (columns of lines 49–70). -/
structure IntervalRow where
  mmsi : Int
  interval_count : Nat
  avg_interval_seconds : ℚ
  median_interval_seconds : ℚ
  p90_interval_seconds : ℚ
  avg_frequency_hz : ℚ
deriving DecidableEq

/-- The interval values of vessel `m` in mask order — the group handed to
`.agg` by `groupby("mmsi")["interval_seconds"]` (line 61). -/
def intervalValsOf (df : List PosRecord) (m : Int) : List Int :=
  ((intervalPairs df).filter (fun p => p.1 == m)).map Prod.snd

/-- The group keys of `groupby("mmsi")`, sorted ascending as pandas does. -/
def intervalKeys (df : List PosRecord) : List Int :=
  List.insertionSort (fun a b : Int => a ≤ b) (((intervalPairs df).map Prod.fst).dedup)

/-- `"mean"` aggregation: sum over count (only applied to nonempty groups). -/
def meanQ (l : List Int) : ℚ :=
  ((l.map (fun x => (x : ℚ))).sum) / (l.length : ℚ)

/-- `"median"` aggregation, pandas semantics: middle element of the sorted
values, or the average of the two middle elements for an even count. -/
def medianQ (l : List Int) : ℚ :=
  let s := List.insertionSort (fun a b : Int => a ≤ b) l
  let n := s.length
  if n % 2 = 1 then ((s.getD (n / 2) 0 : Int) : ℚ)
  else (((s.getD (n / 2 - 1) 0 : Int) : ℚ) + ((s.getD (n / 2) 0 : Int) : ℚ)) / 2

/-- `x.quantile(0.90)` (line 66), pandas linear interpolation: with sorted
values `s` and `h = 0.9 * (n - 1)`, the result is
`s⌊h⌋ + (h - ⌊h⌋) * (s⌊h⌋₊₁ - s⌊h⌋)`. -/
def quantile90 (l : List Int) : ℚ :=
  let s := List.insertionSort (fun a b : Int => a ≤ b) l
  let n := s.length
  let h : ℚ := (9 : ℚ) / 10 * ((n : ℚ) - 1)
  let f : Nat := (Rat.floor h).toNat
  let a : ℚ := ((s.getD f 0 : Int) : ℚ)
  let b : ℚ := ((s.getD (min (f + 1) (n - 1)) 0 : Int) : ℚ)
  a + (h - (f : ℚ)) * (b - a)

/-- The aggregated row of one vessel (lines 60–70): count, mean, median,
90th percentile, and `avg_frequency_hz = 1.0 / avg_interval_seconds`. -/
def intervalRowOf (df : List PosRecord) (m : Int) : IntervalRow :=
  let vals := intervalValsOf df m
  { mmsi := m
    interval_count := vals.length
    avg_interval_seconds := meanQ vals
    median_interval_seconds := medianQ vals
    p90_interval_seconds := quantile90 vals
    avg_frequency_hz := 1 / meanQ vals }

/-- `_compute_interval_table` (lines 42–71): one aggregated row per vessel
with at least one counted interval, finally sorted by
`avg_interval_seconds` ascending. -/
def computeIntervalTable (df : List PosRecord) : List IntervalRow :=
  List.insertionSort (fun a b => a.avg_interval_seconds ≤ b.avg_interval_seconds)
    ((intervalKeys df).map (intervalRowOf df))

/-! ### `_build_mmsi_row_change_table` (lines 74–85) -/

/-- One row of the per-vessel impact table. -/
structure ChangeRow where
  mmsi : Int
  raw_rows : Nat
  cleaned_rows : Nat
  rows_removed : Int
  removed_ratio_pct : ℚ
deriving DecidableEq

/-- `df.groupby("mmsi").size()` for one key: the number of records of vessel
`m` (pandas groupby drops null keys). -/
def keyCount (df : List PosRecord) (m : Int) : Nat :=
  df.countP (fun r => r.mmsi == some m)

/-- The index of the concatenated count series (line 77): the union of the
vessel keys of both tables, sorted ascending. -/
def changeKeys (df_raw df_cleaned : List PosRecord) : List Int :=
  List.insertionSort (fun a b : Int => a ≤ b)
    (((df_raw.filterMap PosRecord.mmsi) ++ (df_cleaned.filterMap PosRecord.mmsi)).dedup)

/-- One impact row (lines 77–83): counts on both sides (`fillna(0)` for a
missing side), their difference, and the removal percentage with the
`replace(0, pd.NA) … fillna(0.0)` zero-denominator guard. -/
def changeRowOf (df_raw df_cleaned : List PosRecord) (m : Int) : ChangeRow :=
  let raw := keyCount df_raw m
  let cleaned := keyCount df_cleaned m
  let removed : Int := (raw : Int) - (cleaned : Int)
  { mmsi := m
    raw_rows := raw
    cleaned_rows := cleaned
    rows_removed := removed
    removed_ratio_pct :=
      if raw = 0 then 0 else (removed : ℚ) / (raw : ℚ) * 100 }

/-- The descending `(rows_removed, raw_rows)` sort key of line 84. -/
def rankLe (a b : ChangeRow) : Bool :=
  decide (b.rows_removed < a.rows_removed) ||
    (decide (a.rows_removed = b.rows_removed) && decide (b.raw_rows ≤ a.raw_rows))

/-- `rankLe` as a relation. -/
def rankLeP (a b : ChangeRow) : Prop := rankLe a b = true

instance : DecidableRel rankLeP := fun a b => by unfold rankLeP; infer_instance

/-- `_build_mmsi_row_change_table` (lines 74–85). -/
def buildMmsiRowChangeTable (df_raw df_cleaned : List PosRecord) : List ChangeRow :=
  List.insertionSort rankLeP
    ((changeKeys df_raw df_cleaned).map (changeRowOf df_raw df_cleaned))

/-! ### `_load_raw_data` (lines 35–39) -/

/-- The raw `timeUtc` CSV field: either a parseable instant or an
unparseable string. -/
inductive TimeField
  | valid (t : Int)
  | unparseable (raw : String)
deriving DecidableEq

/-- The `errors` mode of `pd.to_datetime`. -/
inductive ParseMode
  | raiseMode
  | coerceMode
deriving DecidableEq

/-- `pd.to_datetime(x, errors=mode)` on one field: with `errors="coerce"` an
unparseable value becomes null (`NaT`); with `errors="raise"` it raises. -/
def toDatetime : ParseMode → TimeField → Except String (Option Int)
  | .raiseMode, .valid t => .ok (some t)
  | .raiseMode, .unparseable s => .error s
  | .coerceMode, .valid t => .ok (some t)
  | .coerceMode, .unparseable _ => .ok none

/-- One CSV row as read by `pd.read_csv` (relevant columns only). -/
structure CsvRow where
  mmsi : Option Int
  timeRaw : TimeField
  lon : Option ℚ
  lat : Option ℚ
  sog : Option ℚ
deriving DecidableEq

/-- One row after `_load_raw_data` (lines 35–39): the timestamp column parsed
with `errors="coerce"`, and `df["speed"] = df["sog"]`. -/
def parseRow (row : CsvRow) : Except String PosRecord :=
  (toDatetime .coerceMode row.timeRaw).map (fun t =>
    { mmsi := row.mmsi, timeUtc := t, lon := row.lon, lat := row.lat, speed := row.sog })

/-- `_load_raw_data` over the whole table: parse every row, propagating a
parse exception if one were raised. -/
def loadRawData : List CsvRow → Except String (List PosRecord)
  | [] => .ok []
  | row :: rest => do
    let r ← parseRow row
    let rs ← loadRawData rest
    pure (r :: rs)

/-- The pure effect of `errors="coerce"` on one row: an unparseable timestamp
becomes `none`. -/
def coerceRow (row : CsvRow) : PosRecord :=
  { mmsi := row.mmsi
    timeUtc := match row.timeRaw with
      | .valid t => some t
      | .unparseable _ => none
    lon := row.lon
    lat := row.lat
    speed := row.sog }

/-! ### `_format_diagnostics_report` (lines 88–134) -/

/-- The numeric content `_format_diagnostics_report` derives from its four
inputs (lines 94–106); text layout is presentation and out of scope.  `none`
in the two mean-interval fields models the `float("nan")` of an empty
table. -/
structure ReportData where
  total_raw : Nat
  total_cleaned : Nat
  total_removed : Int
  total_removed_pct : ℚ
  avg_interval_raw : Option ℚ
  avg_interval_cleaned : Option ℚ
  fully_removed_ships : Nat
  ships_50_removed : Nat
  ships_80_removed : Nat
deriving DecidableEq

/-- Mean of the `avg_interval_seconds` column, `none` (NaN) when empty
(lines 99–102). -/
def meanAvgInterval (t : List IntervalRow) : Option ℚ :=
  if t.length = 0 then none
  else some (((t.map IntervalRow.avg_interval_seconds).sum) / (t.length : ℚ))

/-- `_format_diagnostics_report` (lines 88–134), reduced to the values it
computes: `none` when `step_df` lacks a `raw_input` row or is empty (where
`.iloc` would raise). -/
def reportData (step_recs : List StepRecord) (mmsi_row_change : List ChangeRow)
    (raw_interval : List IntervalRow) (cleaned_interval : List IntervalRow) :
    Option ReportData :=
  match step_recs.find? (fun r => r.step == "raw_input"), step_recs.getLast? with
  | some rawRec, some lastRec =>
    let total_raw := rawRec.rows_after
    let total_cleaned := lastRec.rows_after
    let total_removed : Int := (total_raw : Int) - (total_cleaned : Int)
    some
      { total_raw := total_raw
        total_cleaned := total_cleaned
        total_removed := total_removed
        total_removed_pct :=
          if total_raw = 0 then 0 else (total_removed : ℚ) / (total_raw : ℚ) * 100
        avg_interval_raw := meanAvgInterval raw_interval
        avg_interval_cleaned := meanAvgInterval cleaned_interval
        fully_removed_ships := mmsi_row_change.countP (fun r => r.cleaned_rows == 0)
        ships_50_removed := mmsi_row_change.countP (fun r => decide (50 ≤ r.removed_ratio_pct))
        ships_80_removed := mmsi_row_change.countP (fun r => decide (80 ≤ r.removed_ratio_pct)) }
  | _, _ => none

/-! ### Heap model of the diagnostics step (lines 203–230)

pandas frames are objects on a heap; the diagnostics claim is about
aliasing: `_compute_interval_table` takes a `.copy()` before assigning its
`interval_seconds` column, so the only column assignment in the aggregator
mutates a fresh object, never an input.  The heap holds both full frames and
the two-column work frames. -/

/-- A pandas object reachable during the diagnostics step. -/
inductive PandasObj
  | frame (rows : List PosRecord)
  | workFrame (rows : List (Int × Int × Option Int))
deriving DecidableEq

/-- A heap of pandas objects, addressed by position. -/
abbrev Heap := List PandasObj

/-- Read a full frame at an address (empty when the address is no frame). -/
def getFrame (h : Heap) (a : Nat) : List PosRecord :=
  match List.getD h a (.frame []) with
  | .frame rows => rows
  | .workFrame _ => []

/-- The work frame of line 43: `df[["mmsi","timeUtc"]].dropna(...).copy()`
(interval column not yet assigned). -/
def intervalWork0 (df : List PosRecord) : List (Int × Int × Option Int) :=
  (validKeyTimeRows df).map (fun p => (p.1, p.2, none))

/-- The work frame of line 44: `data.sort_values(...).reset_index(drop=True)`. -/
def intervalWork1 (df : List PosRecord) : List (Int × Int × Option Int) :=
  (sortKeyTime (validKeyTimeRows df)).map (fun p => (p.1, p.2, (none : Option Int)))

/-- The work frame after the line-45 column assignment. -/
def intervalWork2 (df : List PosRecord) : List (Int × Int × Option Int) :=
  groupDiffCol (sortKeyTime (validKeyTimeRows df))

/-- The work frame after the line-46 boolean-mask selection. -/
def intervalWork3 (df : List PosRecord) : List (Int × Int × Option Int) :=
  (intervalWork2 df).filter keepPositiveInterval

/-- The heap effect of `_compute_interval_table` on the frame at address `a`:
the `.copy()` of line 43 allocates a work frame, the
`sort_values(...).reset_index(drop=True)` rebinding of line 44 allocates
another, the `data["interval_seconds"] = ...` assignment of line 45 mutates
that latest allocation in place (`List.set` at its address `h.length + 1`),
and the boolean-mask selection of line 46 allocates the final work frame. -/
def computeIntervalTableHeap (h : Heap) (a : Nat) : Heap :=
  (((h ++ [PandasObj.workFrame (intervalWork0 (getFrame h a))])
      ++ [PandasObj.workFrame (intervalWork1 (getFrame h a))]).set (h.length + 1)
      (PandasObj.workFrame (intervalWork2 (getFrame h a))))
    ++ [PandasObj.workFrame (intervalWork3 (getFrame h a))]

/-- `_compute_interval_table` on the frame at address `a`: the heap effect
paired with the aggregated table, which is a pure read of the input frame. -/
def computeIntervalTableH (h : Heap) (a : Nat) : Heap × List IntervalRow :=
  (computeIntervalTableHeap h a, computeIntervalTable (getFrame h a))

/-- Lines 207–209 and 225–230: compute both interval tables, the per-vessel
impact table, and the report values, threading the heap. -/
def computeDiagnosticsH (h : Heap) (rawA cleanedA : Nat) (step_recs : List StepRecord) :
    Heap × (List IntervalRow × List IntervalRow × List ChangeRow × Option ReportData) :=
  let out1 := computeIntervalTableH h rawA
  let out2 := computeIntervalTableH out1.1 cleanedA
  let h2 := out2.1
  let changeT := buildMmsiRowChangeTable (getFrame h2 rawA) (getFrame h2 cleanedA)
  let rep := reportData step_recs changeT out1.2 out2.2
  (h2, (out1.2, out2.2, changeT, rep))

/-- Claim-side helper: the successive time deltas of a vessel's timestamp
list, seeded with the previously seen timestamp of that vessel (if any);
`none` marks an undefined delta. -/
def diffsFrom : Option Int → List Int → List (Option Int)
  | _, [] => []
  | acc, t :: rest => (acc.map (fun tp => t - tp)) :: diffsFrom (some t) rest

/-- The notna-and-positive mask of line 46 on one interval value. -/
def posOpt : Option Int → Bool
  | some d => decide (0 < d)
  | none => false

/-! ### `_build_summary` interval statistics
(`p1_raw_data_inspection.py` lines 48–56): the raw table is sorted and
diffed without dropping null keys or timestamps first; nulls are excluded
only by the final notna/positivity mask. -/

/-- Lexicographic `(mmsi, timeUtc)` order on nullable key/time pairs, nulls
last, for p1's `df.sort_values(["mmsi", "timeUtc"])`. -/
def optPairLe (x y : Option Int × Option Int) : Bool :=
  (optIntLe x.1 y.1 && !(optIntLe y.1 x.1)) || (x.1 == y.1 && optIntLe x.2 y.2)

/-- `optPairLe` as a relation. -/
def optPairLeP (x y : Option Int × Option Int) : Prop := optPairLe x y = true

instance : DecidableRel optPairLeP := fun a b => by unfold optPairLeP; infer_instance

/-- p1 line 49: the `(mmsi, timeUtc)` columns of every row, nulls included. -/
def p1KeyTimeRows (df : List PosRecord) : List (Option Int × Option Int) :=
  df.map (fun r => (r.mmsi, r.timeUtc))

/-- p1 line 49: the whole table sorted by `(mmsi, timeUtc)`, nulls last. -/
def p1Sorted (df : List PosRecord) : List (Option Int × Option Int) :=
  List.insertionSort optPairLeP (p1KeyTimeRows df)

/-- Difference of two nullable timestamps; `NaT` propagates to `NaN`. -/
def p1DiffVal (t tp : Option Int) : Option Int :=
  match t, tp with
  | some a, some b => some (a - b)
  | _, _ => none

/-- p1 lines 49–52: `groupby("mmsi")["timeUtc"].diff()` over the sorted
table; a row with a null key belongs to no group and gets a null diff, and
the first row of each group gets a null diff. -/
def p1GroupDiffGo :
    List (Option Int × Option Int) → List (Option Int × Option Int) →
      List (Option Int × Option Int × Option Int)
  | _, [] => []
  | seen, (m, t) :: rest =>
    (m, t,
      (match m with
       | none => none
       | some _ =>
         match (seen.find? (fun p => p.1 == m)).map Prod.snd with
         | none => none
         | some tp => p1DiffVal t tp)) :: p1GroupDiffGo ((m, t) :: seen) rest

/-- p1 line 54: the diffs surviving the notna/positivity mask, tagged with
their (necessarily non-null) vessel key. -/
def p1IntervalPairs (df : List PosRecord) : List (Int × Int) :=
  (p1GroupDiffGo [] (p1Sorted df)).filterMap (fun p =>
    match p.1, p.2.2 with
    | some m, some d => if 0 < d then some (m, d) else none
    | _, _ => none)

/-- Claim-side helper for p1: per-vessel diffs over nullable timestamps,
seeded with the previously seen (nullable) timestamp. -/
def p1DiffsFrom : Option (Option Int) → List (Option Int) → List (Option Int)
  | _, [] => []
  | acc, t :: rest =>
    (match acc with
     | none => none
     | some tp => p1DiffVal t tp) :: p1DiffsFrom (some t) rest

/-- Extraction of a strictly positive interval value. -/
def posBind (d? : Option Int) : Option Int :=
  d?.bind (fun d => if 0 < d then some d else none)

/-- Sample raw table used by concrete witnesses: vessel 1 has two fixes
(out of time order in the table), vessel 2 has one. -/
def dfSampleRaw : List PosRecord :=
  [⟨some 1, some 10, some 0, some 0, some 0⟩,
   ⟨some 1, some 3, some 0, some 0, some 0⟩,
   ⟨some 2, some 5, some 1, some 1, some 0⟩]

/-- Sample cleaned table used by concrete witnesses: vessel 1 fully removed. -/
def dfSampleCleaned : List PosRecord :=
  [⟨some 2, some 5, some 1, some 1, some 0⟩]

/-- Sample CSV rows used by concrete witnesses: the second row has an
unparseable timestamp. -/
def csvSampleRows : List CsvRow :=
  [⟨some 1, TimeField.valid 5, some 0, some 0, some 0⟩,
   ⟨some 1, TimeField.unparseable "not-a-date", some 0, some 0, some 0⟩]

/-! ### Order facts for the sort relations -/

theorem optIntLe_refl (a : Option Int) : optIntLe a a = true := by
  rcases a with _ | x <;> simp [optIntLe]

theorem optIntLe_total (a b : Option Int) : optIntLe a b = true ∨ optIntLe b a = true := by
  rcases a with _ | x <;> rcases b with _ | y <;> simp [optIntLe] <;> omega

theorem optIntLe_trans {a b c : Option Int} (h1 : optIntLe a b = true)
    (h2 : optIntLe b c = true) : optIntLe a c = true := by
  rcases a with _ | x <;> rcases b with _ | y <;> rcases c with _ | z <;>
    simp_all [optIntLe] <;> omega

theorem optIntLe_antisymm {a b : Option Int} (h1 : optIntLe a b = true)
    (h2 : optIntLe b a = true) : a = b := by
  rcases a with _ | x <;> rcases b with _ | y <;> simp_all [optIntLe] <;> omega

instance : IsTotal PosRecord timeLeP := ⟨fun a b => optIntLe_total a.timeUtc b.timeUtc⟩

instance : IsTrans PosRecord timeLeP := ⟨fun _ _ _ h1 h2 => optIntLe_trans h1 h2⟩

theorem mmsiTimeLe_iff (a b : PosRecord) :
    mmsiTimeLe a b = true ↔
      (optIntLe a.mmsi b.mmsi = true ∧ ¬ optIntLe b.mmsi a.mmsi = true) ∨
        (a.mmsi = b.mmsi ∧ optIntLe a.timeUtc b.timeUtc = true) := by
  unfold mmsiTimeLe
  simp [Bool.or_eq_true, Bool.and_eq_true]

instance : IsTotal PosRecord mmsiTimeLeP :=
  ⟨by
    intro a b
    unfold mmsiTimeLeP
    rw [mmsiTimeLe_iff, mmsiTimeLe_iff]
    by_cases hab : optIntLe a.mmsi b.mmsi = true <;>
      by_cases hba : optIntLe b.mmsi a.mmsi = true
    · have heq : a.mmsi = b.mmsi := optIntLe_antisymm hab hba
      rcases optIntLe_total a.timeUtc b.timeUtc with h | h
      · exact Or.inl (Or.inr ⟨heq, h⟩)
      · exact Or.inr (Or.inr ⟨heq.symm, h⟩)
    · exact Or.inl (Or.inl ⟨hab, hba⟩)
    · exact Or.inr (Or.inl ⟨hba, hab⟩)
    · rcases optIntLe_total a.mmsi b.mmsi with h | h
      · exact absurd h hab
      · exact absurd h hba⟩

instance : IsTrans PosRecord mmsiTimeLeP :=
  ⟨by
    intro a b c h1 h2
    unfold mmsiTimeLeP at h1 h2 ⊢
    rw [mmsiTimeLe_iff] at h1 h2 ⊢
    rcases h1 with ⟨hab, hnba⟩ | ⟨hab, htab⟩
    · rcases h2 with ⟨hbc, hncb⟩ | ⟨hbc, htbc⟩
      · refine Or.inl ⟨optIntLe_trans hab hbc, fun hca => ?_⟩
        exact hncb (optIntLe_trans hca hab)
      · refine Or.inl ⟨hbc ▸ hab, fun hca => ?_⟩
        exact hnba (hbc.symm ▸ hca)
    · rcases h2 with ⟨hbc, hncb⟩ | ⟨hbc, htbc⟩
      · refine Or.inl ⟨hab.symm ▸ hbc, fun hca => ?_⟩
        exact hncb (hab ▸ hca)
      · exact Or.inr ⟨hab.trans hbc, optIntLe_trans htab htbc⟩⟩

instance : IsTotal (Int × Int) keyTimeLeP :=
  ⟨by intro a b; unfold keyTimeLeP keyTimeLe; simp; omega⟩

instance : IsTrans (Int × Int) keyTimeLeP :=
  ⟨by
    intro a b c h1 h2
    unfold keyTimeLeP keyTimeLe at h1 h2 ⊢
    simp_all
    omega⟩

instance : IsTotal ChangeRow rankLeP :=
  ⟨by intro a b; unfold rankLeP rankLe; simp; omega⟩

instance : IsTrans ChangeRow rankLeP :=
  ⟨by
    intro a b c h1 h2
    unfold rankLeP rankLe at h1 h2 ⊢
    simp_all
    omega⟩


/-! ### Sublist facts about the modelled stages -/

theorem dedupGo_sublist (seen : List (Option Int × Option Int)) (l : List PosRecord) :
    List.Sublist (dedupGo seen l) l := by
  induction l generalizing seen with
  | nil => simp [dedupGo]
  | cons r rest ih =>
    rw [dedupGo]
    by_cases h : (r.mmsi, r.timeUtc) ∈ seen
    · simp only [if_pos h]
      exact (ih seen).trans (List.sublist_cons_self r rest)
    · simp only [if_neg h]
      exact (ih _).cons₂ r

theorem basicStage_sublist (df : List PosRecord) : List.Sublist (basicStage df) df :=
  (dedupGo_sublist [] (df.filter basicKeep)).trans (List.filter_sublist df)

theorem dropJitterRun_sublist (thr2 : ℚ) (p : PosRecord) (l : List PosRecord) :
    List.Sublist (dropJitterRun thr2 p l) l := by
  induction l generalizing p with
  | nil => simp [dropJitterRun]
  | cons r rest ih =>
    cases rest with
    | nil => simp [dropJitterRun]
    | cons s rest2 =>
      rw [dropJitterRun]
      by_cases h : dist2 p r < thr2
      · simp only [if_pos h]
        exact (ih p).trans (List.sublist_cons_self r (s :: rest2))
      · simp only [if_neg h]
        exact (ih r).cons₂ r

theorem tbdDriftStage_sublist (cfg : CleanConfig) (l : List PosRecord) :
    List.Sublist (tbdDriftStage cfg l) l := by
  cases l with
  | nil => simp [tbdDriftStage]
  | cons r rest =>
    rw [tbdDriftStage]
    exact (dropJitterRun_sublist cfg.jitterThr2 r rest).cons₂ r

theorem bdDriftGo_sublist (cfg : CleanConfig) (a : PosRecord) (l : List PosRecord) :
    List.Sublist (bdDriftGo cfg a l) l := by
  induction l generalizing a with
  | nil => simp [bdDriftGo]
  | cons b rest ih =>
    cases rest with
    | nil => simp [bdDriftGo]
    | cons c rest2 =>
      rw [bdDriftGo]
      by_cases h : (spikeTo cfg a b && spikeTo cfg b c && !(spikeTo cfg a c)) = true
      · simp only [if_pos h]
        exact (ih b).trans (List.sublist_cons_self b (c :: rest2))
      · simp only [if_neg h]
        exact (ih b).cons₂ b

theorem bdDriftStage_sublist (cfg : CleanConfig) (l : List PosRecord) :
    List.Sublist (bdDriftStage cfg l) l := by
  cases l with
  | nil => simp [bdDriftStage]
  | cons a rest =>
    rw [bdDriftStage]
    exact (bdDriftGo_sublist cfg a rest).cons₂ a

theorem speedFilterGo_sublist (cfg : CleanConfig) (p : PosRecord) (l : List PosRecord) :
    List.Sublist (speedFilterGo cfg p l) l := by
  induction l generalizing p with
  | nil => simp [speedFilterGo]
  | cons r rest ih =>
    rw [speedFilterGo]
    split
    · exact (ih p).trans (List.sublist_cons_self r rest)
    · exact (ih r).cons₂ r

theorem speedStage_sublist (cfg : CleanConfig) (l : List PosRecord) :
    List.Sublist (speedStage cfg l) l := by
  cases l with
  | nil => simp [speedStage]
  | cons r rest =>
    rw [speedStage]
    exact (speedFilterGo_sublist cfg r rest).cons₂ r

/-! ### Partition facts for the per-vessel wrapper -/

theorem sum_map_add_split {β : Type} (ks : List β) (f g : β → Nat) :
    (ks.map (fun k => f k + g k)).sum = (ks.map f).sum + (ks.map g).sum := by
  induction ks with
  | nil => simp
  | cons k ks ih => simp only [List.map_cons, List.sum_cons, ih]; omega

theorem sum_map_indicator_of_not_mem {β : Type} [DecidableEq β] (ks : List β) (b : β)
    (hb : b ∉ ks) :
    (ks.map (fun k => if b = k then 1 else 0)).sum = 0 := by
  induction ks with
  | nil => simp
  | cons k ks ih =>
    have h1 : b ≠ k := fun h => hb (h ▸ List.mem_cons_self k ks)
    have h2 : b ∉ ks := fun h => hb (List.mem_cons_of_mem k h)
    simp [h1, ih h2]

theorem sum_map_indicator_of_mem {β : Type} [DecidableEq β] (ks : List β) (b : β)
    (hnd : ks.Nodup) (hb : b ∈ ks) :
    (ks.map (fun k => if b = k then 1 else 0)).sum = 1 := by
  induction ks with
  | nil => exact absurd hb (List.not_mem_nil b)
  | cons k ks ih =>
    rcases List.mem_cons.1 hb with h | h
    · subst h
      have : b ∉ ks := (List.nodup_cons.1 hnd).1
      simp [sum_map_indicator_of_not_mem ks b this]
    · have h1 : b ≠ k := by
        rintro rfl
        exact (List.nodup_cons.1 hnd).1 h
      simp only [List.map_cons, List.sum_cons, if_neg h1]
      rw [ih (List.nodup_cons.1 hnd).2 h]

theorem sum_filter_key_length {α β : Type} [DecidableEq β] (key : α → β) :
    ∀ (df : List α) (ks : List β), ks.Nodup → (∀ a ∈ df, key a ∈ ks) →
      (ks.map (fun k => (df.filter (fun a => decide (key a = k))).length)).sum = df.length := by
  intro df
  induction df with
  | nil => intro ks _ _; simp
  | cons a df ih =>
    intro ks hnd hcov
    have hmap : (fun k => ((a :: df).filter (fun x => decide (key x = k))).length)
        = fun k => (if key a = k then 1 else 0) +
          (df.filter (fun x => decide (key x = k))).length := by
      funext k
      by_cases h : key a = k
      · simp [List.filter_cons, h]
        omega
      · simp [List.filter_cons, h]
    rw [hmap, sum_map_add_split,
      sum_map_indicator_of_mem ks (key a) hnd (hcov a (List.mem_cons_self a df)),
      ih ks hnd (fun x hx => hcov x (List.mem_cons_of_mem a hx))]
    simp [Nat.add_comm]

theorem perVessel_length_le (f : List PosRecord → List PosRecord)
    (hf : ∀ l, (f l).length ≤ l.length) (df : List PosRecord) :
    (perVessel f df).length ≤ df.length := by
  unfold perVessel
  rw [List.flatMap, List.length_flatten, List.map_map]
  have hcov : ∀ r ∈ df, r.mmsi ∈ vesselKeys df := by
    intro r hr
    exact List.mem_dedup.2 (List.mem_map_of_mem PosRecord.mmsi hr)
  have hpart := sum_filter_key_length PosRecord.mmsi df (vesselKeys df)
    (List.nodup_dedup _) hcov
  calc ((vesselKeys df).map
        (List.length ∘ fun k => f (sortByTime (vesselGroup df k)))).sum
      ≤ ((vesselKeys df).map
        (fun k => (df.filter (fun a => decide (a.mmsi = k))).length)).sum := by
        apply List.sum_le_sum
        intro k _
        have h1 : (f (sortByTime (vesselGroup df k))).length
            ≤ (sortByTime (vesselGroup df k)).length := hf _
        have h2 : (sortByTime (vesselGroup df k)).length = (vesselGroup df k).length :=
          List.length_insertionSort _ _
        exact le_of_le_of_eq (h1.trans (le_of_eq h2)) rfl
    _ = df.length := hpart

theorem perVessel_mem (f : List PosRecord → List PosRecord)
    (hf : ∀ l r, r ∈ f l → r ∈ l) (df : List PosRecord) (r : PosRecord)
    (hr : r ∈ perVessel f df) : r ∈ df := by
  unfold perVessel at hr
  rcases List.mem_flatMap.1 hr with ⟨k, _, hmem⟩
  have h1 : r ∈ sortByTime (vesselGroup df k) := hf _ r hmem
  have h2 : r ∈ vesselGroup df k := (List.perm_insertionSort _ _).mem_iff.1 h1
  exact List.mem_of_mem_filter h2

theorem applyStage_length_le (cfg : CleanConfig) (s : Stage) (df : List PosRecord) :
    (applyStage cfg s df).length ≤ df.length := by
  cases s with
  | basic => exact (basicStage_sublist df).length_le
  | tbd_drift =>
    exact perVessel_length_le _ (fun l => (tbdDriftStage_sublist cfg l).length_le) df
  | bidirectional_speed_drift =>
    exact perVessel_length_le _ (fun l => (bdDriftStage_sublist cfg l).length_le) df
  | speed_anomalies =>
    exact perVessel_length_le _ (fun l => (speedStage_sublist cfg l).length_le) df

theorem applyStage_mem (cfg : CleanConfig) (s : Stage) (df : List PosRecord)
    (r : PosRecord) (hr : r ∈ applyStage cfg s df) : r ∈ df := by
  cases s with
  | basic => exact (basicStage_sublist df).mem hr
  | tbd_drift =>
    exact perVessel_mem _ (fun l x hx => (tbdDriftStage_sublist cfg l).mem hx) df r hr
  | bidirectional_speed_drift =>
    exact perVessel_mem _ (fun l x hx => (bdDriftStage_sublist cfg l).mem hx) df r hr
  | speed_anomalies =>
    exact perVessel_mem _ (fun l x hx => (speedStage_sublist cfg l).mem hx) df r hr

/-! ### Pipeline-level facts -/

theorem applyStage_nil (cfg : CleanConfig) (s : Stage) : applyStage cfg s [] = [] := by
  have h := applyStage_length_le cfg s []
  simp only [List.length_nil, Nat.le_zero, List.length_eq_zero] at h
  exact h

theorem runSteps_rows (cfg : CleanConfig) (initial : Nat) :
    ∀ (steps : List Stage) (df : List PosRecord) (rec0 : StepRecord),
      rec0 ∈ (runSteps cfg initial steps df).2 → rec0.rows_after ≤ rec0.rows_before := by
  intro steps
  induction steps with
  | nil => intro df rec0 h; simp [runSteps] at h
  | cons s rest ih =>
    intro df rec0 h
    rw [runSteps] at h
    rcases List.mem_cons.1 h with h1 | h1
    · subst h1
      simpa [mkStep] using applyStage_length_le cfg s df
    · exact ih (applyStage cfg s df) rec0 h1

theorem runSteps_nil_df (cfg : CleanConfig) (initial : Nat) :
    ∀ steps : List Stage,
      runSteps cfg initial steps [] =
        ([], steps.map (fun s => mkStep (stageName s) 0 0 initial)) := by
  intro steps
  induction steps with
  | nil => rfl
  | cons s rest ih =>
    rw [runSteps, applyStage_nil, ih]
    rfl

theorem runSteps_names (cfg : CleanConfig) (initial : Nat) :
    ∀ (steps : List Stage) (df : List PosRecord),
      (runSteps cfg initial steps df).2.map StepRecord.step = steps.map stageName := by
  intro steps
  induction steps with
  | nil => intro df; rfl
  | cons s rest ih =>
    intro df
    rw [runSteps]
    simp only [List.map_cons]
    rw [ih (applyStage cfg s df)]
    rfl

/-- Claim C1: For every stage applied by the pipeline, the recorded row count
after the stage is at most the row count before it, and every record
surviving a stage was among that stage's input records — no stage ever
synthesizes a record. -/
theorem monotonic_reduction (cfg : CleanConfig) :
    (∀ (steps : List Stage) (df : List PosRecord) (rec0 : StepRecord),
        rec0 ∈ (runPipeline cfg steps df).2 → rec0.rows_after ≤ rec0.rows_before) ∧
    (∀ (s : Stage) (df : List PosRecord),
        (applyStage cfg s df).length ≤ df.length ∧
        ∀ r ∈ applyStage cfg s df, r ∈ df) := by
  constructor
  · intro steps df rec0 h
    rw [runPipeline] at h
    rcases List.mem_cons.1 h with h1 | h1
    · subst h1; exact le_refl _
    · exact runSteps_rows cfg df.length steps df rec0 h1
  · intro s df
    exact ⟨applyStage_length_le cfg s df, fun r hr => applyStage_mem cfg s df r hr⟩

/-- Claim C4: On empty input, the pipeline returns zero rows; the step summary
lists the `raw_input` row and then every configured stage, each with
`rows_before = rows_after = 0`; and every removal percentage — per step and
in the report totals — is 0 rather than a division-by-zero failure. -/
theorem empty_input_pipeline (cfg : CleanConfig) (steps : List Stage) :
    (runPipeline cfg steps []).1 = [] ∧
    (runPipeline cfg steps []).2
      = rawInputStep 0 :: steps.map (fun s => mkStep (stageName s) 0 0 0) ∧
    (∀ rec0 ∈ (runPipeline cfg steps []).2,
        rec0.rows_before = 0 ∧ rec0.rows_after = 0 ∧ rec0.rows_removed = 0 ∧
        rec0.removed_pct_of_previous = 0 ∧ rec0.removed_pct_of_initial = 0) ∧
    ∃ rd, reportData (runPipeline cfg steps []).2 (buildMmsiRowChangeTable [] [])
        (computeIntervalTable []) (computeIntervalTable []) = some rd ∧
      rd.total_raw = 0 ∧ rd.total_cleaned = 0 ∧ rd.total_removed = 0 ∧
      rd.total_removed_pct = 0 := by
  have h2 : (runPipeline cfg steps []).2
      = rawInputStep 0 :: steps.map (fun s => mkStep (stageName s) 0 0 0) := by
    rw [runPipeline, runSteps_nil_df]
    rfl
  have hall : ∀ rec0 ∈ (runPipeline cfg steps []).2,
      rec0.rows_before = 0 ∧ rec0.rows_after = 0 ∧ rec0.rows_removed = 0 ∧
      rec0.removed_pct_of_previous = 0 ∧ rec0.removed_pct_of_initial = 0 := by
    intro rec0 hmem
    rw [h2] at hmem
    rcases List.mem_cons.1 hmem with h | h
    · subst h
      exact ⟨rfl, rfl, rfl, rfl, rfl⟩
    · rcases List.mem_map.1 h with ⟨s, _, hs⟩
      subst hs
      exact ⟨rfl, rfl, rfl, by simp [mkStep], by simp [mkStep]⟩
  refine ⟨?_, h2, hall, ?_⟩
  · rw [runPipeline, runSteps_nil_df]
  · have hfind : ((runPipeline cfg steps []).2).find? (fun r => r.step == "raw_input")
        = some (rawInputStep 0) := by
      rw [h2]
      exact List.find?_cons_of_pos _ (by decide)
    have hne : (runPipeline cfg steps []).2 ≠ [] := by
      rw [h2]; exact List.cons_ne_nil _ _
    obtain ⟨x, hx⟩ := Option.isSome_iff_exists.1 (List.getLast?_isSome.2 hne)
    have hx0 : x.rows_after = 0 :=
      (hall x (List.mem_of_getLast?_eq_some hx)).2.1
    refine ⟨⟨0, 0, 0, 0, none, none, 0, 0, 0⟩, ?_, rfl, rfl, rfl, rfl⟩
    unfold reportData
    rw [hfind, hx]
    simp only [hx0]
    decide

/-- Witness for C4 at a concrete configuration and stage list. -/
theorem empty_input_pipeline_witness :
    (runPipeline ⟨1, 1, 1⟩ defaultSteps []).1 = [] :=
  (empty_input_pipeline ⟨1, 1, 1⟩ defaultSteps).1

/-- Claim C5: In the reference configuration the bidirectional speed-drift stage
is absent: the configured list is exactly basic, stationary drift, speed
anomalies, in that order; and stage membership is independently togglable —
for any configured stage list the pipeline applies and records exactly those
stages in order. -/
theorem stage3_disabled_by_default :
    defaultSteps = [Stage.basic, Stage.tbd_drift, Stage.speed_anomalies] ∧
    defaultSteps.contains Stage.bidirectional_speed_drift = false ∧
    ∀ (cfg : CleanConfig) (steps : List Stage) (df : List PosRecord),
      (runPipeline cfg steps df).2.map StepRecord.step
        = "raw_input" :: steps.map stageName := by
  refine ⟨rfl, by decide, ?_⟩
  intro cfg steps df
  rw [runPipeline]
  simp only [List.map_cons]
  rw [runSteps_names]
  rfl

/-- Claim C6: The emitted cleaned dataset holds exactly the surviving records,
ordered by vessel identifier and then by timestamp; consequently within every
vessel's surviving trajectory the timestamps are non-decreasing after
cleaning. -/
theorem emit_sorted (df : List PosRecord) :
    List.Perm (emitCleaned df) df ∧
    List.Pairwise mmsiTimeLeP (emitCleaned df) ∧
    ∀ m : Option Int,
      List.Pairwise optIntLeP
        (((emitCleaned df).filter (fun r => r.mmsi == m)).map PosRecord.timeUtc) := by
  refine ⟨List.perm_insertionSort _ _, List.sorted_insertionSort _ _, ?_⟩
  intro m
  have hs : List.Pairwise mmsiTimeLeP (emitCleaned df) := List.sorted_insertionSort _ _
  have hf : ((emitCleaned df).filter (fun r => r.mmsi == m)).Pairwise mmsiTimeLeP :=
    hs.filter _
  have hf2 : ((emitCleaned df).filter (fun r => r.mmsi == m)).Pairwise
      (fun a b => optIntLeP a.timeUtc b.timeUtc) := by
    refine List.Pairwise.imp_of_mem ?_ hf
    intro a b ha hb hab
    have ham : a.mmsi = m := by
      have h := (List.mem_filter.1 ha).2
      simpa using h
    have hbm : b.mmsi = m := by
      have h := (List.mem_filter.1 hb).2
      simpa using h
    rcases (mmsiTimeLe_iff a b).1 hab with ⟨_, h2⟩ | ⟨_, h⟩
    · have hrefl : optIntLe b.mmsi a.mmsi = true := by
        rw [ham, hbm]
        exact optIntLe_refl m
      exact absurd hrefl h2
    · exact h
  exact List.pairwise_map.2 hf2

/-- Witness for C1 at a concrete run: one vessel, two records, default
steps. -/
theorem monotonic_reduction_witness :
    (rawInputStep 2) ∈ (runPipeline ⟨1, 1, 1⟩ defaultSteps
        [⟨some 1, some 0, some 0, some 0, some 0⟩,
         ⟨some 1, some 5, some 3, some 3, some 0⟩]).2 ∧
    (rawInputStep 2).rows_after ≤ (rawInputStep 2).rows_before := by
  refine ⟨by decide, ?_⟩
  exact (monotonic_reduction ⟨1, 1, 1⟩).1 defaultSteps
    [⟨some 1, some 0, some 0, some 0, some 0⟩,
     ⟨some 1, some 5, some 3, some 3, some 0⟩] (rawInputStep 2) (by decide)

/-! ### Interval facts: the groupby/diff column equals per-vessel adjacent
deltas -/

theorem lastTimeOf_cons_self (t : Int) (seen : List (Int × Int)) (m : Int) :
    lastTimeOf ((m, t) :: seen) m = some t := by
  unfold lastTimeOf
  rw [List.find?_cons_of_pos _ (by simp)]
  rfl

theorem lastTimeOf_cons_ne (k t m : Int) (h : k ≠ m) (seen : List (Int × Int)) :
    lastTimeOf ((k, t) :: seen) m = lastTimeOf seen m := by
  unfold lastTimeOf
  rw [List.find?_cons_of_neg _ (by simp [h])]

theorem groupDiffGo_filter (m : Int) :
    ∀ (rows seen : List (Int × Int)),
      ((groupDiffGo seen rows).filter (fun p => p.1 == m)).map (fun p => p.2.2)
        = diffsFrom (lastTimeOf seen m)
            ((rows.filter (fun p => p.1 == m)).map Prod.snd) := by
  intro rows
  induction rows with
  | nil => intro seen; rfl
  | cons a rest ih =>
    intro seen
    obtain ⟨k, t⟩ := a
    rw [groupDiffGo]
    by_cases hk : k = m
    · subst hk
      simp only [List.filter_cons, beq_self_eq_true, if_true, List.map_cons]
      rw [diffsFrom, ih ((k, t) :: seen), lastTimeOf_cons_self]
    · have hbeq : ((k : Int) == m) = false := by simp [hk]
      simp only [List.filter_cons, hbeq, Bool.false_eq_true, if_false]
      rw [ih ((k, t) :: seen), lastTimeOf_cons_ne k t m hk]

theorem diffsFrom_some (p : Int) (ts : List Int) :
    diffsFrom (some p) ts
      = (List.zipWith (fun a b => b - a) (p :: ts) ts).map some := by
  induction ts generalizing p with
  | nil => rfl
  | cons t rest ih =>
    rw [diffsFrom, ih t]
    rfl

theorem diffsFrom_none_pos_map (ts : List Int) :
    ((diffsFrom none ts).filter posOpt).map (fun d => d.getD 0)
      = (adjacentDeltas ts).filter (fun d => decide (0 < d)) := by
  cases ts with
  | nil => rfl
  | cons t rest =>
    rw [diffsFrom]
    have hh : (Option.map (fun tp => t - tp) none : Option Int) = none := rfl
    rw [hh]
    have hdrop : List.filter posOpt (none :: diffsFrom (some t) rest)
        = List.filter posOpt (diffsFrom (some t) rest) := by
      rw [List.filter_cons]
      rfl
    rw [hdrop]
    rw [diffsFrom_some, List.filter_map, List.map_map]
    have h1 : (posOpt ∘ some) = (fun d : Int => decide (0 < d)) := by
      funext d; rfl
    rw [h1]
    have h2 : ((fun d : Option Int => d.getD 0) ∘ some) = fun d : Int => d := by
      funext d; rfl
    rw [h2]
    have h3 : ∀ l : List Int, l.map (fun d => d) = l := by
      intro l
      induction l with
      | nil => rfl
      | cons x xs ih => simp only [List.map_cons, ih]
    rw [h3]
    rfl

theorem filter_sortKeyTime_map_snd (df : List PosRecord) (m : Int) :
    ((sortKeyTime (validKeyTimeRows df)).filter (fun p => p.1 == m)).map Prod.snd
      = vesselTimesSpec df m := by
  have hanti : IsAntisymm Int (fun a b : Int => a ≤ b) :=
    ⟨fun _ _ h1 h2 => le_antisymm h1 h2⟩
  refine @List.eq_of_perm_of_sorted Int (fun a b => a ≤ b) hanti _ _ ?_ ?_ ?_
  · have h1 : List.Perm (sortKeyTime (validKeyTimeRows df)) (validKeyTimeRows df) :=
      List.perm_insertionSort _ _
    have h2 := (h1.filter (fun p => p.1 == m)).map Prod.snd
    have h3 : List.Perm (vesselTimesSpec df m)
        (((validKeyTimeRows df).filter (fun p => p.1 == m)).map Prod.snd) :=
      List.perm_insertionSort _ _
    exact h2.trans h3.symm
  · have hs : List.Pairwise keyTimeLeP (sortKeyTime (validKeyTimeRows df)) :=
      List.sorted_insertionSort _ _
    have hf := hs.filter (fun p => p.1 == m)
    have hf2 : ((sortKeyTime (validKeyTimeRows df)).filter
        (fun p => p.1 == m)).Pairwise (fun a b => a.2 ≤ b.2) := by
      refine List.Pairwise.imp_of_mem ?_ hf
      intro a b ha hb hab
      have ham : a.1 = m := by simpa using (List.mem_filter.1 ha).2
      have hbm : b.1 = m := by simpa using (List.mem_filter.1 hb).2
      unfold keyTimeLeP keyTimeLe at hab
      simp only [Bool.or_eq_true, Bool.and_eq_true, decide_eq_true_eq] at hab
      omega
    exact List.pairwise_map.2 hf2
  · exact List.sorted_insertionSort _ _

theorem filter_keep_map_getD (l : List (Int × Int × Option Int)) :
    (l.filter keepPositiveInterval).map (fun p => p.2.2.getD 0)
      = ((l.map (fun p => p.2.2)).filter posOpt).map (fun d => d.getD 0) := by
  rw [List.filter_map, List.map_map]
  have h1 : (posOpt ∘ fun p : Int × Int × Option Int => p.2.2) = keepPositiveInterval := by
    funext p
    rcases p with ⟨x, y, _ | d⟩ <;> rfl
  rw [h1]
  rfl

/-- The heart of the interval claims: the interval values recorded for vessel
`m` are exactly the positive deltas between temporally adjacent valid
timestamps of vessel `m`. -/
theorem intervalValsOf_eq_spec (df : List PosRecord) (m : Int) :
    intervalValsOf df m
      = (adjacentDeltas (vesselTimesSpec df m)).filter (fun d => decide (0 < d)) := by
  unfold intervalValsOf intervalPairs
  rw [List.filter_map, List.map_map]
  have hq : ((fun p : Int × ℤ => p.1 == m) ∘
      (fun p : Int × Int × Option Int => (p.1, p.2.2.getD 0)))
      = fun p : Int × Int × Option Int => p.1 == m := by
    funext p; rfl
  rw [hq]
  have hsnd : (Prod.snd ∘ fun p : Int × Int × Option Int => (p.1, p.2.2.getD 0))
      = fun p : Int × Int × Option Int => p.2.2.getD 0 := by
    funext p; rfl
  rw [hsnd]
  rw [List.filter_filter]
  have hcomm : (fun a : Int × Int × Option Int => (a.1 == m) && keepPositiveInterval a)
      = fun a : Int × Int × Option Int => keepPositiveInterval a && (a.1 == m) := by
    funext a
    exact Bool.and_comm _ _
  rw [hcomm, ← List.filter_filter]
  rw [filter_keep_map_getD]
  unfold groupDiffCol
  rw [groupDiffGo_filter m _ []]
  have hlast : lastTimeOf [] m = none := rfl
  rw [hlast, diffsFrom_none_pos_map, filter_sortKeyTime_map_snd]

/-! ### The p1 interval path: sorting with nulls, then groupby diff -/

theorem optPairLe_iff (x y : Option Int × Option Int) :
    optPairLe x y = true ↔
      (optIntLe x.1 y.1 = true ∧ ¬ optIntLe y.1 x.1 = true) ∨
        (x.1 = y.1 ∧ optIntLe x.2 y.2 = true) := by
  unfold optPairLe
  simp [Bool.or_eq_true, Bool.and_eq_true]

instance : IsTotal (Option Int × Option Int) optPairLeP :=
  ⟨by
    intro a b
    unfold optPairLeP
    rw [optPairLe_iff, optPairLe_iff]
    by_cases hab : optIntLe a.1 b.1 = true <;>
      by_cases hba : optIntLe b.1 a.1 = true
    · have heq : a.1 = b.1 := optIntLe_antisymm hab hba
      rcases optIntLe_total a.2 b.2 with h | h
      · exact Or.inl (Or.inr ⟨heq, h⟩)
      · exact Or.inr (Or.inr ⟨heq.symm, h⟩)
    · exact Or.inl (Or.inl ⟨hab, hba⟩)
    · exact Or.inr (Or.inl ⟨hba, hab⟩)
    · rcases optIntLe_total a.1 b.1 with h | h
      · exact absurd h hab
      · exact absurd h hba⟩

instance : IsTrans (Option Int × Option Int) optPairLeP :=
  ⟨by
    intro a b c h1 h2
    unfold optPairLeP at h1 h2 ⊢
    rw [optPairLe_iff] at h1 h2 ⊢
    rcases h1 with ⟨hab, hnba⟩ | ⟨hab, htab⟩
    · rcases h2 with ⟨hbc, hncb⟩ | ⟨hbc, htbc⟩
      · refine Or.inl ⟨optIntLe_trans hab hbc, fun hca => ?_⟩
        exact hncb (optIntLe_trans hca hab)
      · refine Or.inl ⟨hbc ▸ hab, fun hca => ?_⟩
        exact hnba (hbc.symm ▸ hca)
    · rcases h2 with ⟨hbc, hncb⟩ | ⟨hbc, htbc⟩
      · refine Or.inl ⟨hab.symm ▸ hbc, fun hca => ?_⟩
        exact hncb (hab ▸ hca)
      · exact Or.inr ⟨hab.trans hbc, optIntLe_trans htab htbc⟩⟩

theorem p1GroupDiffGo_filter (m : Int) :
    ∀ (rows seen : List (Option Int × Option Int)),
      ((p1GroupDiffGo seen rows).filter (fun p => p.1 == some m)).map (fun p => p.2.2)
        = p1DiffsFrom ((seen.find? (fun p => p.1 == some m)).map Prod.snd)
            ((rows.filter (fun p => p.1 == some m)).map Prod.snd) := by
  intro rows
  induction rows with
  | nil => intro seen; rfl
  | cons a rest ih =>
    intro seen
    obtain ⟨k, t⟩ := a
    have hstep : p1GroupDiffGo seen ((k, t) :: rest)
        = (k, t,
            (match k with
             | none => none
             | some _ =>
               match (seen.find? (fun p => p.1 == k)).map Prod.snd with
               | none => none
               | some tp => p1DiffVal t tp)) :: p1GroupDiffGo ((k, t) :: seen) rest := rfl
    rw [hstep]
    by_cases hk : k = some m
    · subst hk
      simp only [List.filter_cons, beq_self_eq_true, if_true, List.map_cons]
      have hstep2 : p1DiffsFrom ((seen.find? (fun p => p.1 == some m)).map Prod.snd)
          (t :: (rest.filter (fun p => p.1 == some m)).map Prod.snd)
          = (match (seen.find? (fun p => p.1 == some m)).map Prod.snd with
             | none => none
             | some tp => p1DiffVal t tp)
            :: p1DiffsFrom (some t) ((rest.filter (fun p => p.1 == some m)).map Prod.snd) :=
        rfl
      rw [hstep2]
      have hfind : (((some m, t) :: seen).find? (fun p => p.1 == some m)).map Prod.snd
          = some t := by
        rw [List.find?_cons_of_pos _ (by simp)]
        rfl
      rw [ih ((some m, t) :: seen), hfind]
    · have hbeq : ((k : Option Int) == some m) = false := by
        simp [hk]
      simp only [List.filter_cons, hbeq, Bool.false_eq_true, if_false]
      have hfind : ((k, t) :: seen).find? (fun p => p.1 == some m)
          = seen.find? (fun p => p.1 == some m) :=
        List.find?_cons_of_neg _ (by simp [hk])
      rw [ih ((k, t) :: seen), hfind]

theorem p1_extract (m : Int) :
    ∀ l : List (Option Int × Option Int × Option Int),
      ((l.filterMap (fun p =>
          match p.1, p.2.2 with
          | some k, some d => if 0 < d then some (k, d) else none
          | _, _ => none)).filter (fun q => q.1 == m)).map Prod.snd
        = ((l.filter (fun p => p.1 == some m)).map (fun p => p.2.2)).filterMap posBind := by
  intro l
  induction l with
  | nil => rfl
  | cons p rest ih =>
    obtain ⟨k, t, d?⟩ := p
    rcases k with _ | k
    · simpa using ih
    · by_cases hk : k = m
      · subst hk
        rcases d? with _ | d
        · simpa [posBind] using ih
        · by_cases hd : 0 < d
          · simpa [hd, posBind] using ih
          · simpa [hd, posBind] using ih
      · have hbeq1 : ((k : Int) == m) = false := by simp [hk]
        have hbeq2 : ((some k : Option Int) == some m) = false := by simp [hk]
        rcases d? with _ | d
        · simpa [hbeq1, hbeq2] using ih
        · by_cases hd : 0 < d
          · simpa [hbeq1, hbeq2, hd] using ih
          · simpa [hbeq1, hbeq2, hd] using ih

theorem p1DiffsFrom_none_all :
    ∀ (ns : List (Option Int)) (acc : Option (Option Int)),
      (∀ x ∈ ns, x = none) → (p1DiffsFrom acc ns).filterMap posBind = [] := by
  intro ns
  induction ns with
  | nil => intro acc _; rfl
  | cons x rest ih =>
    intro acc hall
    have hx : x = none := hall x (List.mem_cons_self x rest)
    subst hx
    have htail := ih (some none) (fun y hy => hall y (List.mem_cons_of_mem _ hy))
    rcases acc with _ | tp
    · have hstep : p1DiffsFrom none (none :: rest)
          = none :: p1DiffsFrom (some none) rest := rfl
      rw [hstep, List.filterMap_cons_none (by rfl)]
      exact htail
    · have hstep : p1DiffsFrom (some tp) (none :: rest)
          = p1DiffVal none tp :: p1DiffsFrom (some none) rest := rfl
      rw [hstep]
      have hnone : posBind (p1DiffVal none tp) = none := by
        rcases tp with _ | v <;> rfl
      rw [List.filterMap_cons_none hnone]
      exact htail

theorem p1DiffsFrom_valid :
    ∀ (vs : List Int) (acc2 : Option (Option Int)) (acc : Option Int)
      (ns : List (Option Int)), acc2 = acc.map some → (∀ x ∈ ns, x = none) →
      (p1DiffsFrom acc2 (vs.map some ++ ns)).filterMap posBind
        = (diffsFrom acc vs).filterMap posBind := by
  intro vs
  induction vs with
  | nil =>
    intro acc2 acc ns h2 hns
    rw [show diffsFrom acc [] = [] from rfl]
    simp only [List.map_nil, List.nil_append, List.filterMap_nil]
    exact p1DiffsFrom_none_all ns acc2 hns
  | cons v vs ih =>
    intro acc2 acc ns h2 hns
    subst h2
    simp only [List.map_cons, List.cons_append]
    have hstep : p1DiffsFrom (acc.map some) (some v :: (vs.map some ++ ns))
        = (match acc.map some with
           | none => none
           | some tp => p1DiffVal (some v) tp)
          :: p1DiffsFrom (some (some v)) (vs.map some ++ ns) := rfl
    have hstep2 : diffsFrom acc (v :: vs)
        = (acc.map (fun tp => v - tp)) :: diffsFrom (some v) vs := rfl
    rw [hstep, hstep2]
    have hhead : (match acc.map some with
        | none => none
        | some tp => p1DiffVal (some v) tp) = acc.map (fun tp => v - tp) := by
      rcases acc with _ | p <;> rfl
    rw [hhead]
    rw [List.filterMap_cons, List.filterMap_cons]
    rw [ih (some (some v)) (some v) ns rfl hns]

theorem filterMap_posBind_eq (l : List (Option Int)) :
    l.filterMap posBind = (l.filter posOpt).map (fun d => d.getD 0) := by
  induction l with
  | nil => rfl
  | cons x rest ih =>
    rcases x with _ | d
    · simpa [posBind, posOpt] using ih
    · by_cases hd : 0 < d
      · simpa [posBind, posOpt, hd] using ih
      · simpa [posBind, posOpt, hd] using ih

theorem sorted_opt_split (ws : List (Option Int))
    (hw : List.Pairwise (fun a b => optIntLe a b = true) ws) :
    ∃ ns, ws = (ws.filterMap (fun x => x)).map some ++ ns ∧ ∀ x ∈ ns, x = none := by
  induction ws with
  | nil => exact ⟨[], rfl, by simp⟩
  | cons w rest ih =>
    rcases w with _ | v
    · have hall : ∀ x ∈ rest, x = none := by
        intro x hx
        have h := (List.pairwise_cons.1 hw).1 x hx
        rcases x with _ | y
        · rfl
        · simp [optIntLe] at h
      refine ⟨none :: rest, ?_, ?_⟩
      · have hnil : (none :: rest).filterMap (fun x : Option Int => x) = [] := by
          rw [List.filterMap_eq_nil_iff]
          intro a ha
          rcases List.mem_cons.1 ha with h | h
          · exact h
          · exact hall a h
        rw [hnil]
        rfl
      · intro x hx
        rcases List.mem_cons.1 hx with h | h
        · exact h
        · exact hall x h
    · obtain ⟨ns, h1, h2⟩ := ih (List.pairwise_cons.1 hw).2
      refine ⟨ns, ?_, h2⟩
      have hcons : (some v :: rest).filterMap (fun x : Option Int => x)
          = v :: rest.filterMap (fun x : Option Int => x) :=
        List.filterMap_cons_some rfl
      rw [hcons, List.map_cons, List.cons_append]
      exact congrArg (List.cons (some v)) h1

theorem p1_unsorted_valid_times (m : Int) (df : List PosRecord) :
    (((p1KeyTimeRows df).filter (fun p => p.1 == some m)).map Prod.snd).filterMap
        (fun x : Option Int => x)
      = ((validKeyTimeRows df).filter (fun p => p.1 == m)).map Prod.snd := by
  induction df with
  | nil => rfl
  | cons r rest ih =>
    unfold p1KeyTimeRows validKeyTimeRows
    unfold p1KeyTimeRows validKeyTimeRows at ih
    simp only [List.map_cons, List.filterMap_cons]
    rcases hm : r.mmsi with _ | k
    · simpa [List.filter_cons, hm] using ih
    · rcases ht : r.timeUtc with _ | t
      · by_cases hk : k = m
        · subst hk
          simpa [List.filter_cons, hm, ht] using ih
        · simpa [List.filter_cons, hm, ht, hk] using ih
      · by_cases hk : k = m
        · subst hk
          simpa [List.filter_cons, hm, ht] using ih
        · simpa [List.filter_cons, hm, ht, hk] using ih

theorem p1IntervalVals_eq_spec (df : List PosRecord) (m : Int) :
    ((p1IntervalPairs df).filter (fun p => p.1 == m)).map Prod.snd
      = (adjacentDeltas (vesselTimesSpec df m)).filter (fun d => decide (0 < d)) := by
  unfold p1IntervalPairs
  rw [p1_extract m]
  unfold p1Sorted
  rw [p1GroupDiffGo_filter m (List.insertionSort optPairLeP (p1KeyTimeRows df)) []]
  have hacc : ((List.find? (fun p => p.1 == some m)
      ([] : List (Option Int × Option Int))).map Prod.snd) = none := rfl
  rw [hacc]
  have hS : List.Pairwise optPairLeP (List.insertionSort optPairLeP (p1KeyTimeRows df)) :=
    List.sorted_insertionSort _ _
  have hws : List.Pairwise (fun a b : Option Int => optIntLe a b = true)
      (((List.insertionSort optPairLeP (p1KeyTimeRows df)).filter
          (fun p => p.1 == some m)).map Prod.snd) := by
    refine List.pairwise_map.2 ?_
    refine List.Pairwise.imp_of_mem ?_ (hS.filter _)
    intro a b ha hb hab
    have ham : a.1 = some m := by simpa using (List.mem_filter.1 ha).2
    have hbm : b.1 = some m := by simpa using (List.mem_filter.1 hb).2
    rcases (optPairLe_iff a b).1 hab with ⟨_, h2⟩ | ⟨_, h⟩
    · have hrefl : optIntLe b.1 a.1 = true := by
        rw [ham, hbm]
        exact optIntLe_refl _
      exact absurd hrefl h2
    · exact h
  have hvs : ((((List.insertionSort optPairLeP (p1KeyTimeRows df)).filter
        (fun p => p.1 == some m)).map Prod.snd).filterMap (fun x : Option Int => x))
      = vesselTimesSpec df m := by
    have hanti : IsAntisymm Int (fun a b : Int => a ≤ b) :=
      ⟨fun _ _ h1 h2 => le_antisymm h1 h2⟩
    have hsorted : List.Pairwise (fun a b : Int => a ≤ b)
        ((((List.insertionSort optPairLeP (p1KeyTimeRows df)).filter
            (fun p => p.1 == some m)).map Prod.snd).filterMap (fun x : Option Int => x)) := by
      rw [List.pairwise_filterMap]
      refine hws.imp ?_
      intro a b hab x hx y hy
      rw [Option.mem_def] at hx hy
      subst hx
      subst hy
      simpa [optIntLe] using hab
    have h0 : List.Perm (List.insertionSort optPairLeP (p1KeyTimeRows df))
        (p1KeyTimeRows df) := List.perm_insertionSort _ _
    have h1 : List.Perm
        ((((List.insertionSort optPairLeP (p1KeyTimeRows df)).filter
            (fun p => p.1 == some m)).map Prod.snd).filterMap (fun x : Option Int => x))
        ((((p1KeyTimeRows df).filter (fun p => p.1 == some m)).map
            Prod.snd).filterMap (fun x : Option Int => x)) :=
      ((h0.filter _).map _).filterMap _
    rw [p1_unsorted_valid_times m df] at h1
    have h2 : List.Perm (vesselTimesSpec df m)
        (((validKeyTimeRows df).filter (fun p => p.1 == m)).map Prod.snd) :=
      List.perm_insertionSort _ _
    refine @List.eq_of_perm_of_sorted Int (fun a b : Int => a ≤ b) hanti _ _
      (h1.trans h2.symm) hsorted ?_
    exact List.sorted_insertionSort _ _
  obtain ⟨ns, hsplit, hns⟩ := sorted_opt_split _ hws
  rw [hsplit, p1DiffsFrom_valid _ none none ns rfl hns,
    filterMap_posBind_eq, diffsFrom_none_pos_map]
  rw [hvs]

/-- Claim C2: The intervals counted for a vessel — both by
`_compute_interval_table` in `p2_traj_cleaning.py` and by `_build_summary`
in `p1_raw_data_inspection.py` — are exactly the positive time deltas
between temporally adjacent valid-timestamp records of that vessel, and
every counted interval is strictly positive: non-positive or undefined
deltas never enter interval statistics. -/
theorem interval_counting (df : List PosRecord) (m : Int) :
    (((intervalPairs df).filter (fun p => p.1 == m)).map Prod.snd
      = (adjacentDeltas (vesselTimesSpec df m)).filter (fun d => decide (0 < d)) ∧
    ∀ p ∈ intervalPairs df, 0 < p.2) ∧
    (((p1IntervalPairs df).filter (fun p => p.1 == m)).map Prod.snd
      = (adjacentDeltas (vesselTimesSpec df m)).filter (fun d => decide (0 < d)) ∧
    ∀ p ∈ p1IntervalPairs df, 0 < p.2) := by
  refine ⟨⟨intervalValsOf_eq_spec df m, ?_⟩, p1IntervalVals_eq_spec df m, ?_⟩
  · intro p hp
    unfold intervalPairs at hp
    rcases List.mem_map.1 hp with ⟨q, hq, rfl⟩
    have hk := (List.mem_filter.1 hq).2
    unfold keepPositiveInterval at hk
    rcases hq2 : q.2.2 with _ | d
    · rw [hq2] at hk
      simp at hk
    · rw [hq2] at hk
      simp only [decide_eq_true_eq] at hk
      simpa [hq2] using hk
  · intro p hp
    unfold p1IntervalPairs at hp
    rcases List.mem_filterMap.1 hp with ⟨q, _, heq⟩
    rcases hq1 : q.1 with _ | k
    · rw [hq1] at heq
      simp at heq
    · rcases hq2 : q.2.2 with _ | d
      · rw [hq1, hq2] at heq
        simp at heq
      · rw [hq1, hq2] at heq
        have heq2 : (if 0 < d then some ((k, d) : Int × Int) else none) = some p := heq
        by_cases hd : 0 < d
        · rw [if_pos hd] at heq2
          cases heq2
          simpa using hd
        · rw [if_neg hd] at heq2
          simp at heq2

/-- Witness for C2 on the sample raw table: vessel 1's counted intervals. -/
theorem interval_counting_witness :
    (1, 7) ∈ intervalPairs dfSampleRaw ∧ 0 < ((1, 7) : Int × Int).2 :=
  ⟨by decide, (interval_counting dfSampleRaw 1).1.2 (1, 7) (by decide)⟩

/-- Claim C8: For every vessel with at least one counted interval, the interval
table (computed separately for the raw snapshot and the cleaned snapshot at
lines 207–208) has a row carrying that vessel's interval count, mean, median,
90th percentile, and implied sampling frequency equal to the reciprocal of
the vessel's mean interval; the underlying values are that vessel's adjacent
positive deltas. -/
theorem interval_table_stats (df : List PosRecord) (m : Int)
    (hm : m ∈ intervalKeys df) :
    ∃ row ∈ computeIntervalTable df,
      row.mmsi = m ∧
      row.interval_count = (intervalValsOf df m).length ∧
      row.avg_interval_seconds = meanQ (intervalValsOf df m) ∧
      row.median_interval_seconds = medianQ (intervalValsOf df m) ∧
      row.p90_interval_seconds = quantile90 (intervalValsOf df m) ∧
      row.avg_frequency_hz = 1 / row.avg_interval_seconds ∧
      intervalValsOf df m
        = (adjacentDeltas (vesselTimesSpec df m)).filter (fun d => decide (0 < d)) := by
  refine ⟨intervalRowOf df m, ?_, rfl, rfl, rfl, rfl, rfl, rfl,
    intervalValsOf_eq_spec df m⟩
  unfold computeIntervalTable
  exact (List.perm_insertionSort _ _).mem_iff.2 (List.mem_map_of_mem _ hm)

/-- Witness for C8 on the sample raw table at vessel 1. -/
theorem interval_table_stats_witness :
    (1 : Int) ∈ intervalKeys dfSampleRaw ∧
    ∃ row ∈ computeIntervalTable dfSampleRaw,
      row.mmsi = 1 ∧
      row.interval_count = (intervalValsOf dfSampleRaw 1).length ∧
      row.avg_interval_seconds = meanQ (intervalValsOf dfSampleRaw 1) ∧
      row.median_interval_seconds = medianQ (intervalValsOf dfSampleRaw 1) ∧
      row.p90_interval_seconds = quantile90 (intervalValsOf dfSampleRaw 1) ∧
      row.avg_frequency_hz = 1 / row.avg_interval_seconds ∧
      intervalValsOf dfSampleRaw 1
        = (adjacentDeltas (vesselTimesSpec dfSampleRaw 1)).filter
            (fun d => decide (0 < d)) :=
  ⟨by decide, interval_table_stats dfSampleRaw 1 (by decide)⟩

/-! ### Facts about the per-vessel impact table -/

/-- Claim C3: Every row of the per-vessel impact table carries that vessel's raw
and cleaned row counts, their difference, and the removal percentage; and the
table is ranked most-removed-first with ties broken by larger raw count. -/
theorem change_table_ranked (df_raw df_cleaned : List PosRecord) :
    (∀ row ∈ buildMmsiRowChangeTable df_raw df_cleaned,
        row.raw_rows = keyCount df_raw row.mmsi ∧
        row.cleaned_rows = keyCount df_cleaned row.mmsi ∧
        row.rows_removed = (row.raw_rows : Int) - (row.cleaned_rows : Int) ∧
        (row.raw_rows ≠ 0 →
          row.removed_ratio_pct
            = (row.rows_removed : ℚ) / (row.raw_rows : ℚ) * 100)) ∧
    List.Pairwise
      (fun a b => b.rows_removed < a.rows_removed ∨
        (a.rows_removed = b.rows_removed ∧ b.raw_rows ≤ a.raw_rows))
      (buildMmsiRowChangeTable df_raw df_cleaned) := by
  constructor
  · intro row hrow
    unfold buildMmsiRowChangeTable at hrow
    have h1 := (List.perm_insertionSort _ _).mem_iff.1 hrow
    rcases List.mem_map.1 h1 with ⟨k, _, rfl⟩
    refine ⟨rfl, rfl, rfl, ?_⟩
    intro hne
    have hne2 : keyCount df_raw k ≠ 0 := hne
    simp only [changeRowOf, if_neg hne2]
  · have hs : List.Pairwise rankLeP (buildMmsiRowChangeTable df_raw df_cleaned) :=
      List.sorted_insertionSort _ _
    refine hs.imp ?_
    intro a b hab
    unfold rankLeP rankLe at hab
    simp only [Bool.or_eq_true, Bool.and_eq_true, decide_eq_true_eq] at hab
    exact hab

/-- Witness for C3 on the sample tables: vessel 1's row. -/
theorem change_table_ranked_witness :
    changeRowOf dfSampleRaw dfSampleCleaned 1
      ∈ buildMmsiRowChangeTable dfSampleRaw dfSampleCleaned ∧
    (changeRowOf dfSampleRaw dfSampleCleaned 1).raw_rows = keyCount dfSampleRaw 1 := by
  have hmem : changeRowOf dfSampleRaw dfSampleCleaned 1
      ∈ buildMmsiRowChangeTable dfSampleRaw dfSampleCleaned := by
    unfold buildMmsiRowChangeTable
    exact (List.perm_insertionSort _ _).mem_iff.2
      (List.mem_map_of_mem _ (by decide))
  exact ⟨hmem, ((change_table_ranked dfSampleRaw dfSampleCleaned).1 _ hmem).1⟩

/-- Claim C10: For every vessel appearing in either snapshot, the impact table
has a row for it; a vessel absent from one side counts 0 there;
`rows_removed` always equals `raw_rows - cleaned_rows`; and the removal
percentage is 0 (never a division error) when `raw_rows` is 0. -/
theorem change_table_total (df_raw df_cleaned : List PosRecord) (m : Int)
    (hm : m ∈ df_raw.filterMap PosRecord.mmsi ∨
      m ∈ df_cleaned.filterMap PosRecord.mmsi) :
    ∃ row ∈ buildMmsiRowChangeTable df_raw df_cleaned,
      row.mmsi = m ∧ row.raw_rows = keyCount df_raw m ∧
      row.cleaned_rows = keyCount df_cleaned m ∧
      row.rows_removed = (row.raw_rows : Int) - (row.cleaned_rows : Int) ∧
      (row.raw_rows = 0 → row.removed_ratio_pct = 0) ∧
      ((∀ r ∈ df_raw, r.mmsi ≠ some m) → row.raw_rows = 0) ∧
      ((∀ r ∈ df_cleaned, r.mmsi ≠ some m) → row.cleaned_rows = 0) := by
  refine ⟨changeRowOf df_raw df_cleaned m, ?_, rfl, rfl, rfl, rfl, ?_, ?_, ?_⟩
  · unfold buildMmsiRowChangeTable
    refine (List.perm_insertionSort _ _).mem_iff.2 (List.mem_map_of_mem _ ?_)
    unfold changeKeys
    refine (List.perm_insertionSort _ _).mem_iff.2 ?_
    rw [List.mem_dedup, List.mem_append]
    exact hm
  · intro h0
    have h02 : keyCount df_raw m = 0 := h0
    simp only [changeRowOf, if_pos h02]
  · intro hno
    show keyCount df_raw m = 0
    unfold keyCount
    rw [List.countP_eq_zero]
    intro r hr hp
    exact hno r hr (by simpa using hp)
  · intro hno
    show keyCount df_cleaned m = 0
    unfold keyCount
    rw [List.countP_eq_zero]
    intro r hr hp
    exact hno r hr (by simpa using hp)

/-- Witness for C10: vessel 1 appears only in the raw sample. -/
theorem change_table_total_witness :
    ((1 : Int) ∈ dfSampleRaw.filterMap PosRecord.mmsi ∨
      (1 : Int) ∈ dfSampleCleaned.filterMap PosRecord.mmsi) ∧
    ∃ row ∈ buildMmsiRowChangeTable dfSampleRaw dfSampleCleaned,
      row.mmsi = 1 ∧ row.raw_rows = keyCount dfSampleRaw 1 ∧
      row.cleaned_rows = keyCount dfSampleCleaned 1 ∧
      row.rows_removed = (row.raw_rows : Int) - (row.cleaned_rows : Int) ∧
      (row.raw_rows = 0 → row.removed_ratio_pct = 0) ∧
      ((∀ r ∈ dfSampleRaw, r.mmsi ≠ some 1) → row.raw_rows = 0) ∧
      ((∀ r ∈ dfSampleCleaned, r.mmsi ≠ some 1) → row.cleaned_rows = 0) :=
  ⟨by decide, change_table_total dfSampleRaw dfSampleCleaned 1 (by decide)⟩

/-! ### Ingestion facts -/

theorem parseRow_eq (row : CsvRow) : parseRow row = Except.ok (coerceRow row) := by
  rcases hrow : row.timeRaw with t | s <;>
    simp [parseRow, coerceRow, toDatetime, hrow, Except.map]

/-- Claim C7: An unparseable timestamp never propagates as a fatal error:
ingestion with `errors="coerce"` always succeeds, turns the unparseable field
into a null timestamp, and the basic validity stage then resolves the record
locally by exclusion — no record with a null timestamp survives it. -/
theorem coerce_unparseable (rows : List CsvRow) :
    loadRawData rows = Except.ok (rows.map coerceRow) ∧
    (∀ row ∈ rows, ∀ s, row.timeRaw = TimeField.unparseable s →
        (coerceRow row).timeUtc = none) ∧
    (∀ r ∈ basicStage (rows.map coerceRow), r.timeUtc.isSome = true) := by
  refine ⟨?_, ?_, ?_⟩
  · induction rows with
    | nil => rfl
    | cons row rest ih =>
      rw [loadRawData]
      rw [parseRow_eq, ih]
      rfl
  · intro row _ s hs
    simp [coerceRow, hs]
  · intro r hr
    have h1 : r ∈ (rows.map coerceRow).filter basicKeep :=
      (dedupGo_sublist [] _).mem hr
    have h2 := (List.mem_filter.1 h1).2
    unfold basicKeep at h2
    simp only [Bool.and_eq_true] at h2
    exact h2.1

/-- Witness for C7 on the sample CSV rows. -/
theorem coerce_unparseable_witness :
    (⟨some 1, TimeField.unparseable "not-a-date", some 0, some 0, some 0⟩ : CsvRow)
        ∈ csvSampleRows ∧
    (coerceRow ⟨some 1, TimeField.unparseable "not-a-date", some 0, some 0, some 0⟩).timeUtc
        = none :=
  ⟨by decide,
    (coerce_unparseable csvSampleRows).2.1 _ (by decide) "not-a-date" rfl⟩

/-! ### Heap facts for the diagnostics step -/

theorem getD_append_lt {α : Type} (l l2 : List α) (a : Nat) (d : α)
    (ha : a < l.length) : (l ++ l2).getD a d = l.getD a d := by
  rw [List.getD_eq_getElem?_getD, List.getD_eq_getElem?_getD,
    List.getElem?_append_left ha]

theorem getD_set_ge {α : Type} (l : List α) (i a : Nat) (x : α) (d : α)
    (ha : a < i) : (l.set i x).getD a d = l.getD a d := by
  rw [List.getD_eq_getElem?_getD, List.getD_eq_getElem?_getD,
    List.getElem?_set_ne (Nat.ne_of_gt ha)]

theorem computeIntervalTableHeap_getD (h : Heap) (a0 a : Nat) (d : PandasObj)
    (ha : a < h.length) :
    (computeIntervalTableHeap h a0).getD a d = h.getD a d := by
  unfold computeIntervalTableHeap
  rw [getD_append_lt]
  · rw [getD_set_ge]
    · rw [getD_append_lt, getD_append_lt]
      · exact ha
      · simpa using Nat.lt_succ_of_lt ha
    · omega
  · simp
    omega

theorem computeIntervalTableHeap_length (h : Heap) (a0 : Nat) :
    (computeIntervalTableHeap h a0).length = h.length + 3 := by
  unfold computeIntervalTableHeap
  simp

/-- Claim C9: The diagnostics step — both interval tables, the per-vessel
impact table, and the report values — is a read-only reduction: every pandas
object that existed before it (in particular the raw and cleaned frames) is
unchanged afterwards; the only column assignment in it targets a fresh copy. -/
theorem diagnostics_read_only (h : Heap) (rawA cleanedA : Nat)
    (step_recs : List StepRecord) (a : Nat) (d : PandasObj)
    (ha : a < h.length) :
    ((computeDiagnosticsH h rawA cleanedA step_recs).1).getD a d = h.getD a d := by
  have hlen : h.length ≤ (computeIntervalTableHeap h rawA).length := by
    rw [computeIntervalTableHeap_length]
    omega
  have h2 := computeIntervalTableHeap_getD (computeIntervalTableHeap h rawA)
    cleanedA a d (lt_of_lt_of_le ha hlen)
  have h1 := computeIntervalTableHeap_getD h rawA a d ha
  show (computeIntervalTableHeap (computeIntervalTableHeap h rawA) cleanedA).getD a d
    = h.getD a d
  rw [h2, h1]

/-- Witness for C9 on a one-frame heap. -/
theorem diagnostics_read_only_witness :
    ((computeDiagnosticsH [PandasObj.frame dfSampleRaw] 0 0 []).1).getD 0
        (PandasObj.frame []) = ([PandasObj.frame dfSampleRaw] : Heap).getD 0
        (PandasObj.frame []) :=
  diagnostics_read_only [PandasObj.frame dfSampleRaw] 0 0 [] 0
    (PandasObj.frame []) (by decide)

end AISClean
